import Mathlib

/-!
Shallow embedding of the text-similarity engine of this repository
(`src/services/similarity_service.py`, classes `TextSimilarity` and
`SimilarityService`) and proofs about the claims of its specification.

Texts are modelled as `List Char`.  Python's Unicode machinery
(`str.lower`, NFD decomposition, the `Mn` category, `\w`, `\s`) is
modelled on the alphabet this repository works with: ASCII plus the
precomposed accented Latin letters of Portuguese/Spanish/French listed in
the tables below.  Floats are modelled exactly: rational-valued metrics as
`ℚ` and the square-root based ones (`cosine`, `tfidf`) as `ℝ`.
-/

abbrev Str := List Char

/-- Combining marks of the Unicode block U+0300–U+036F; models
`unicodedata.category(c) == 'Mn'` for the alphabet covered by `nfdChar`. -/
def isMnChar (c : Char) : Bool := 0x300 ≤ c.toNat && c.toNat ≤ 0x36F

/-- Uppercase accented Latin letters and their lowercase forms; together with
ASCII `Char.toLower` this models Python `str.lower` on our alphabet. -/
def accentUpperLower : List (Char × Char) :=
  [('Á', 'á'), ('À', 'à'), ('Â', 'â'), ('Ã', 'ã'), ('Ä', 'ä'), ('Ç', 'ç'),
   ('É', 'é'), ('È', 'è'), ('Ê', 'ê'), ('Ë', 'ë'),
   ('Í', 'í'), ('Ì', 'ì'), ('Î', 'î'), ('Ï', 'ï'), ('Ñ', 'ñ'),
   ('Ó', 'ó'), ('Ò', 'ò'), ('Ô', 'ô'), ('Õ', 'õ'), ('Ö', 'ö'),
   ('Ú', 'ú'), ('Ù', 'ù'), ('Û', 'û'), ('Ü', 'ü')]

/-- Model of Python `str.lower` on one character. -/
def pyLowerChar (c : Char) : Char :=
  match accentUpperLower.lookup c with
  | some l => l
  | none => c.toLower

/-- Canonical decompositions (NFD) of the precomposed lowercase accented
letters of our alphabet: base letter followed by a combining mark. -/
def nfdTable : List (Char × Str) :=
  [('á', ['a', Char.ofNat 0x301]), ('à', ['a', Char.ofNat 0x300]),
   ('â', ['a', Char.ofNat 0x302]), ('ã', ['a', Char.ofNat 0x303]),
   ('ä', ['a', Char.ofNat 0x308]), ('ç', ['c', Char.ofNat 0x327]),
   ('é', ['e', Char.ofNat 0x301]), ('è', ['e', Char.ofNat 0x300]),
   ('ê', ['e', Char.ofNat 0x302]), ('ë', ['e', Char.ofNat 0x308]),
   ('í', ['i', Char.ofNat 0x301]), ('ì', ['i', Char.ofNat 0x300]),
   ('î', ['i', Char.ofNat 0x302]), ('ï', ['i', Char.ofNat 0x308]),
   ('ñ', ['n', Char.ofNat 0x303]),
   ('ó', ['o', Char.ofNat 0x301]), ('ò', ['o', Char.ofNat 0x300]),
   ('ô', ['o', Char.ofNat 0x302]), ('õ', ['o', Char.ofNat 0x303]),
   ('ö', ['o', Char.ofNat 0x308]),
   ('ú', ['u', Char.ofNat 0x301]), ('ù', ['u', Char.ofNat 0x300]),
   ('û', ['u', Char.ofNat 0x302]), ('ü', ['u', Char.ofNat 0x308])]

/-- Model of `unicodedata.normalize('NFD', ·)` on one character. -/
def nfdChar (c : Char) : Str := (nfdTable.lookup c).getD [c]

/-- Model of the regex class `\w` (word characters) on our alphabet. -/
def pyIsWordChar (c : Char) : Bool := c.isAlphanum || c = '_'

/-- Model of the regex class `\s` (ASCII whitespace, as Python `\s` on ASCII). -/
def pyIsSpaceChar (c : Char) : Bool :=
  c = ' ' || c = '\t' || c = '\n' || c = '\x0d' || c = '\x0b' || c = '\x0c'

/-- `re.sub(r'[^\w\s]', ' ', text)`: every character that is neither a word
character nor whitespace becomes a single space. -/
def subNonWord (l : Str) : Str :=
  l.map fun c => if !pyIsWordChar c && !pyIsSpaceChar c then ' ' else c

/-- `re.sub(r'\s+', ' ', text)`: every maximal whitespace run becomes one space. -/
def collapseWs : Str → Str
  | [] => []
  | [c] => if pyIsSpaceChar c then [' '] else [c]
  | c₁ :: c₂ :: rest =>
    if pyIsSpaceChar c₁ && pyIsSpaceChar c₂ then collapseWs (c₂ :: rest)
    else (if pyIsSpaceChar c₁ then ' ' else c₁) :: collapseWs (c₂ :: rest)

/-- Python `str.strip()`. -/
def pyStrip (l : Str) : Str :=
  ((l.dropWhile pyIsSpaceChar).reverse.dropWhile pyIsSpaceChar).reverse

/-- `TextSimilarity.normalize_text`: empty check, lowercase, NFD, drop
combining marks, replace non-word characters by spaces, collapse whitespace,
strip. -/
def normalize_text (t : Str) : Str :=
  if t = [] then []
  else
    pyStrip (collapseWs (subNonWord
      (((t.map pyLowerChar).flatMap nfdChar).filter (fun c => !isMnChar c))))

/-- Auxiliary for `pySplit`: accumulates the current token (reversed). -/
def pySplitAux : Str → Str → List Str
  | [], acc => if acc = [] then [] else [acc.reverse]
  | c :: rest, acc =>
    if pyIsSpaceChar c then
      if acc = [] then pySplitAux rest [] else acc.reverse :: pySplitAux rest []
    else pySplitAux rest (c :: acc)

/-- Python `str.split()` with no argument: split on whitespace runs, dropping
empty tokens. -/
def pySplit (s : Str) : List Str := pySplitAux s []

/-- The stop-word set of `TextSimilarity.extract_keywords` (Portuguese,
English, Spanish), transcribed from the source; the source's Python `set`
literal contains duplicates, which set semantics (and list membership) absorb. -/
def stop_words : List Str :=
  (["o", "a", "os", "as", "de", "da", "do", "dos", "das", "que", "e", "em",
    "um", "uma", "uns", "umas", "para", "com", "sem", "como", "por", "no",
    "na", "nos", "nas", "se", "te", "lo", "le", "lhe", "mais", "mas", "muito",
    "muita", "muitos", "muitas", "pouco", "pouca", "poucos", "poucas", "bem",
    "mal", "já", "ainda", "também", "também", "nem", "só", "não", "sim", "ou",
    "outra", "outro", "outras", "outros", "todo", "toda", "todos", "todas",
    "qual", "quais", "qualquer", "quaisquer", "algum", "alguma", "alguns",
    "algumas", "nenhum", "nenhuma", "nenhuns", "nenhumas", "todo", "toda",
    "todos", "todas", "cada", "qual", "qualquer", "muito", "pouco",
    "the", "and", "or", "but", "in", "on", "at", "to", "for", "of", "with",
    "by", "from", "up", "about", "into", "through", "during", "before",
    "after", "above", "below", "between", "among", "under", "over", "above",
    "can", "cannot", "will", "just", "should", "could", "would", "might",
    "must", "shall", "may", "this", "that", "these", "those", "i", "you",
    "he", "she", "it", "we", "they", "what", "which", "who", "when", "where",
    "why", "how", "all", "each", "every", "both", "few", "more", "most",
    "other", "some", "such", "only", "own", "same", "so", "than", "too",
    "very", "just", "now",
    "el", "la", "de", "que", "y", "a", "en", "un", "es", "se", "no", "te",
    "lo", "le", "da", "su", "por", "son", "con", "para", "al", "una", "del",
    "los", "las", "si", "me", "ya", "muy", "mas", "pero", "como", "ser",
    "hay", "este", "esta", "esto", "todos", "todo", "tiene", "hacer",
    "estar", "un", "una", "unos", "unas", "mi", "mis", "tu", "tus", "su",
    "sus", "nuestro", "nuestra", "nuestros", "nuestras"]).map String.data

/-- `TextSimilarity.extract_keywords`: normalize, split on whitespace, keep
tokens of length ≥ `minLength` that are not stop words, as a set. -/
def extract_keywords (t : Str) (minLength : ℕ) : Finset Str :=
  if t = [] then ∅
  else
    ((pySplit (normalize_text t)).filter
      (fun w => minLength ≤ w.length && !stop_words.contains w)).toFinset

/-- `TextSimilarity.jaccard_similarity`. -/
def jaccard_similarity (set1 set2 : Finset Str) : ℚ :=
  if set1 = ∅ ∧ set2 = ∅ then 1
  else if set1 = ∅ ∨ set2 = ∅ then 0
  else
    let inter := (set1 ∩ set2).card
    let uni := (set1 ∪ set2).card
    if 0 < uni then (inter : ℚ) / uni else 0

/-- Row `i+1` of the DP grid of `levenshtein_distance`, computed from row `i`
(`prevRow`): the cell recurrence of the two nested loops. -/
def levGridRow (a b : Str) (i : ℕ) (prevRow : ℕ → ℕ) : ℕ → ℕ
  | 0 => i + 1
  | j + 1 =>
    if a.getD i ' ' = b.getD j ' ' then prevRow j
    else 1 + min (prevRow (j + 1)) (min (levGridRow a b i prevRow j) (prevRow j))

/-- The DP grid of `TextSimilarity.levenshtein_distance`: `levGrid a b i j`
is the cell `dp[i][j]` (edit distance between the first `i` characters of `a`
and the first `j` of `b`, unit costs); the out-of-range default of `getD` is
never consulted for `i ≤ a.length` and `j ≤ b.length`. -/
def levGrid (a b : Str) : ℕ → ℕ → ℕ
  | 0 => fun j => j
  | i + 1 => levGridRow a b i (levGrid a b i)

theorem levGrid_zero (a b : Str) (j : ℕ) : levGrid a b 0 j = j := rfl

theorem levGrid_succ_zero (a b : Str) (i : ℕ) : levGrid a b (i + 1) 0 = i + 1 := rfl

/-- The grid satisfies exactly the cell recurrence of the source's loops. -/
theorem levGrid_succ_succ (a b : Str) (i j : ℕ) :
    levGrid a b (i + 1) (j + 1) =
      if a.getD i ' ' = b.getD j ' ' then levGrid a b i j
      else 1 + min (levGrid a b i (j + 1))
        (min (levGrid a b (i + 1) j) (levGrid a b i j)) := rfl

/-- `TextSimilarity.levenshtein_distance`: raw-empty early returns, then the
DP over the two normalized strings. -/
def levenshtein_distance (t1 t2 : Str) : ℕ :=
  if t1 = [] then (if t2 = [] then 0 else t2.length)
  else if t2 = [] then t1.length
  else
    let n1 := normalize_text t1
    let n2 := normalize_text t2
    levGrid n1 n2 n1.length n2.length

/-- `TextSimilarity.levenshtein_similarity`: note the divisor is the maximum
of the RAW input lengths while the distance is over the normalized strings. -/
def levenshtein_similarity (t1 t2 : Str) : ℚ :=
  if t1 = [] ∧ t2 = [] then 1
  else if t1 = [] ∨ t2 = [] then 0
  else
    let dist := levenshtein_distance t1 t2
    let maxLen := max t1.length t2.length
    if 0 < maxLen then 1 - (dist : ℚ) / (maxLen : ℚ) else 1

/-- Fuelled form of `matchLen`; fuel `a.length - i` covers the recursion. -/
def matchLenFuel (a b : Str) : ℕ → ℕ → ℕ → ℕ
  | 0, _, _ => 0
  | fuel + 1, i, j =>
    if i < a.length ∧ j < b.length ∧ a.getD i ' ' = b.getD j ' ' then
      matchLenFuel a b fuel (i + 1) (j + 1) + 1
    else 0

/-- Length of the common run of `a` and `b` starting at positions `i`, `j`. -/
def matchLen (a b : Str) (i j : ℕ) : ℕ := matchLenFuel a b (a.length - i) i j

/-- `difflib.SequenceMatcher.find_longest_match` over whole strings with an
empty junk set (autojunk only engages for sequences of length ≥ 200, outside
this model's scope): the longest matching block, and among the longest the one
starting earliest in `a`, then earliest in `b`. -/
def findLongestMatch (a b : Str) : ℕ × ℕ × ℕ :=
  (List.range a.length).foldl
    (fun best i =>
      (List.range b.length).foldl
        (fun best j =>
          if best.2.2 < matchLen a b i j then (i, j, matchLen a b i j) else best)
        best)
    (0, 0, 0)

theorem matchLenFuel_le_left (a b : Str) (fuel : ℕ) : ∀ i j : ℕ,
    matchLenFuel a b fuel i j ≤ a.length - i := by
  induction fuel with
  | zero => intro i j; simp [matchLenFuel]
  | succ n ih =>
    intro i j
    rw [matchLenFuel]
    split
    · rename_i h
      have h1 := h.1
      have h2 := ih (i + 1) (j + 1)
      omega
    · omega

theorem matchLenFuel_le_right (a b : Str) (fuel : ℕ) : ∀ i j : ℕ,
    matchLenFuel a b fuel i j ≤ b.length - j := by
  induction fuel with
  | zero => intro i j; simp [matchLenFuel]
  | succ n ih =>
    intro i j
    rw [matchLenFuel]
    split
    · rename_i h
      have h1 := h.2.1
      have h2 := ih (i + 1) (j + 1)
      omega
    · omega

theorem matchLen_le_left (a b : Str) (i j : ℕ) : matchLen a b i j ≤ a.length - i :=
  matchLenFuel_le_left a b _ i j

theorem matchLen_le_right (a b : Str) (i j : ℕ) : matchLen a b i j ≤ b.length - j :=
  matchLenFuel_le_right a b _ i j

theorem foldl_preserve {α β : Type _} (P : β → Prop) (f : β → α → β) (l : List α)
    (init : β) (h0 : P init) (hstep : ∀ b a, a ∈ l → P b → P (f b a)) :
    P (l.foldl f init) := by
  induction l generalizing init with
  | nil => exact h0
  | cons x xs ih =>
    exact ih (f init x) (hstep init x (List.mem_cons_self x xs)
      h0) (fun b a ha hb => hstep b a (List.mem_cons_of_mem x ha) hb)

/-- The block returned by `findLongestMatch` lies inside both strings. -/
theorem findLongestMatch_valid (a b : Str) :
    (findLongestMatch a b).1 + (findLongestMatch a b).2.2 ≤ a.length ∧
      (findLongestMatch a b).2.1 + (findLongestMatch a b).2.2 ≤ b.length := by
  unfold findLongestMatch
  refine foldl_preserve
    (fun p : ℕ × ℕ × ℕ => p.1 + p.2.2 ≤ a.length ∧ p.2.1 + p.2.2 ≤ b.length)
    _ _ _ (by simp) ?_
  intro best i hi hbest
  refine foldl_preserve
    (fun p : ℕ × ℕ × ℕ => p.1 + p.2.2 ≤ a.length ∧ p.2.1 + p.2.2 ≤ b.length)
    _ _ _ hbest ?_
  intro p j hj hp
  by_cases h : p.2.2 < matchLen a b i j
  · simp only [if_pos h]
    have h1 := matchLen_le_left a b i j
    have h2 := matchLen_le_right a b i j
    have hia := List.mem_range.mp hi
    have hjb := List.mem_range.mp hj
    exact ⟨by omega, by omega⟩
  · simpa only [if_neg h] using hp

/-- Fuelled recursion computing the total size of the matching blocks found
by `SequenceMatcher.get_matching_blocks`: the longest block plus, recursively,
the blocks strictly to its left and strictly to its right.  Each recursive
call strictly shortens `a`, so any fuel exceeding `a.length` computes the full
recursion (`matchTotalFuel_congr` below). -/
def matchTotalFuel : ℕ → Str → Str → ℕ
  | 0, _, _ => 0
  | fuel + 1, a, b =>
    match findLongestMatch a b with
    | (i, j, k) =>
      if k = 0 then 0
      else k + matchTotalFuel fuel (a.take i) (b.take j) +
        matchTotalFuel fuel (a.drop (i + k)) (b.drop (j + k))

/-- Total size of the matching blocks of `a` and `b`. -/
def matchTotal (a b : Str) : ℕ := matchTotalFuel (a.length + 1) a b

theorem matchTotalFuel_congr : ∀ (fuel1 fuel2 : ℕ) (a b : Str),
    a.length < fuel1 → a.length < fuel2 →
    matchTotalFuel fuel1 a b = matchTotalFuel fuel2 a b := by
  intro fuel1
  induction fuel1 with
  | zero => intro fuel2 a b h1 h2; omega
  | succ n ih =>
    intro fuel2 a b h1 h2
    cases fuel2 with
    | zero => omega
    | succ m =>
      rw [matchTotalFuel, matchTotalFuel]
      have hv := findLongestMatch_valid a b
      rcases hm : findLongestMatch a b with ⟨i, j, k⟩
      rw [hm] at hv
      have hva : i + k ≤ a.length := hv.1
      dsimp only
      by_cases hk : k = 0
      · rw [if_pos hk, if_pos hk]
      · rw [if_neg hk, if_neg hk]
        have hq : (a.take i).length = min i a.length := List.length_take _ _
        have hr : (a.drop (i + k)).length = a.length - (i + k) := List.length_drop _ _
        rw [ih m (a.take i) (b.take j) (by omega) (by omega),
          ih m (a.drop (i + k)) (b.drop (j + k)) (by omega) (by omega)]

/-- `matchTotal` satisfies the intended recursion of the matching-blocks
algorithm: the longest block's size plus the totals of the two flanks. -/
theorem matchTotal_eq (a b : Str) :
    matchTotal a b =
      (match findLongestMatch a b with
       | (i, j, k) =>
         if k = 0 then 0
         else k + matchTotal (a.take i) (b.take j) +
           matchTotal (a.drop (i + k)) (b.drop (j + k))) := by
  rw [matchTotal, matchTotalFuel]
  have hv := findLongestMatch_valid a b
  rcases hm : findLongestMatch a b with ⟨i, j, k⟩
  rw [hm] at hv
  have hva : i + k ≤ a.length := hv.1
  dsimp only
  by_cases hk : k = 0
  · rw [if_pos hk, if_pos hk]
  · rw [if_neg hk, if_neg hk]
    have hq : (a.take i).length = min i a.length := List.length_take _ _
    have hr : (a.drop (i + k)).length = a.length - (i + k) := List.length_drop _ _
    rw [matchTotalFuel_congr a.length ((a.take i).length + 1) (a.take i) (b.take j)
        (by omega) (by omega),
      matchTotalFuel_congr a.length ((a.drop (i + k)).length + 1) (a.drop (i + k))
        (b.drop (j + k)) (by omega) (by omega)]
    rfl

/-- `SequenceMatcher.ratio()`: `2*M/T`, except `1.0` when both strings are
empty (difflib's `_calculate_ratio`). -/
def seqRatio (a b : Str) : ℚ :=
  if a.length + b.length = 0 then 1
  else 2 * (matchTotal a b : ℚ) / ((a.length + b.length : ℕ) : ℚ)

/-- `TextSimilarity.sequence_similarity`. -/
def sequence_similarity (t1 t2 : Str) : ℚ :=
  if t1 = [] ∨ t2 = [] then 0
  else seqRatio (normalize_text t1) (normalize_text t2)

/-- `TextSimilarity.cosine_similarity`: raw term-frequency vectors over the
joint vocabulary, then the standard cosine. -/
noncomputable def cosine_similarity (t1 t2 : Str) : ℝ :=
  if t1 = [] ∨ t2 = [] then 0
  else
    let words1 := pySplit (normalize_text t1)
    let words2 := pySplit (normalize_text t2)
    if words1 = [] ∨ words2 = [] then 0
    else
      let vocab := (words1 ++ words2).toFinset
      let dot : ℝ := ∑ w ∈ vocab, (words1.count w : ℝ) * (words2.count w : ℝ)
      let norm1 : ℝ := Real.sqrt (∑ w ∈ vocab, (words1.count w : ℝ) * (words1.count w : ℝ))
      let norm2 : ℝ := Real.sqrt (∑ w ∈ vocab, (words2.count w : ℝ) * (words2.count w : ℝ))
      if norm1 = 0 ∨ norm2 = 0 then 0 else dot / (norm1 * norm2)

/-- The simplified TF-IDF weight of `TextSimilarity.tfidf_similarity`:
`tf * (log(2/(df+1)) + 1)` where `df` counts in how many of the two documents
the term occurs. -/
noncomputable def tfidfWeight (words1 words2 ws : List Str) (w : Str) : ℝ :=
  ((ws.count w : ℝ) / (ws.length : ℝ)) *
    (Real.log (2 / ((((if 0 < words1.count w then 1 else 0) +
      (if 0 < words2.count w then 1 else 0) : ℕ) : ℝ) + 1)) + 1)

/-- `TextSimilarity.tfidf_similarity`: cosine of the TF-IDF weighted vectors. -/
noncomputable def tfidf_similarity (t1 t2 : Str) : ℝ :=
  if t1 = [] ∨ t2 = [] then 0
  else
    let words1 := pySplit (normalize_text t1)
    let words2 := pySplit (normalize_text t2)
    if words1 = [] ∨ words2 = [] then 0
    else
      let vocab := (words1 ++ words2).toFinset
      let dot : ℝ := ∑ w ∈ vocab, tfidfWeight words1 words2 words1 w * tfidfWeight words1 words2 words2 w
      let norm1 : ℝ := Real.sqrt (∑ w ∈ vocab, tfidfWeight words1 words2 words1 w * tfidfWeight words1 words2 words1 w)
      let norm2 : ℝ := Real.sqrt (∑ w ∈ vocab, tfidfWeight words1 words2 words2 w * tfidfWeight words1 words2 words2 w)
      if norm1 = 0 ∨ norm2 = 0 then 0 else dot / (norm1 * norm2)

/-- `TextSimilarity.combined_similarity`: weighted sum
`0.30*sequence + 0.30*cosine + 0.25*jaccard + 0.15*title`, clamped by
`min(1.0, ·)`; empty text short-circuits to `0.0` before anything else. -/
noncomputable def combined_similarity (t1 t2 title1 title2 : Str) : ℝ :=
  if t1 = [] ∨ t2 = [] then 0
  else
    let seqSim : ℚ := sequence_similarity t1 t2
    let cosSim : ℝ := cosine_similarity t1 t2
    let jacSim : ℚ := jaccard_similarity (extract_keywords t1 3) (extract_keywords t2 3)
    let titleSim : ℚ := if title1 ≠ [] ∧ title2 ≠ [] then sequence_similarity title1 title2 else 0
    min 1 (0.30 * (seqSim : ℝ) + 0.30 * cosSim + 0.25 * (jacSim : ℝ) + 0.15 * (titleSim : ℝ))

/-- A ticket as consumed by `SimilarityService`: the dict keys `id`, `title`,
`content`, with Python's `.get(key, '')` defaults folded into total fields. -/
structure Ticket where
  id : Str
  title : Str
  content : Str
deriving DecidableEq

/-- The argument tuple `(id1, text1, title1, id2, text2, title2)` handed to
`_calculate_single_similarity`. -/
structure SimArgs where
  id1 : Str
  text1 : Str
  title1 : Str
  id2 : Str
  text2 : Str
  title2 : Str
deriving DecidableEq

/-- The six metric values computed inside `_calculate_single_similarity`'s
`try` block. -/
structure MetricVals where
  seqV : ℚ
  cosV : ℝ
  jacV : ℚ
  levV : ℚ
  tfidfV : ℝ
  combinedV : ℝ

/-- One `SimilarityResult` dict.  The error dict of the `except` branch only
carries `id1`, `id2`, `error` and `combined = 0.0`; its metric fields below
are placeholders that nothing downstream ever reads. -/
structure SimResult where
  id1 : Str
  id2 : Str
  seqMetric : ℚ
  cosMetric : ℝ
  jacMetric : ℚ
  levMetric : ℚ
  tfidfMetric : ℝ
  combined : ℝ
  error : Option Str

/-- The body of `_calculate_single_similarity` is a `try` whose metric
computations may raise (e.g. on malformed candidate data).  The possibly
raising computation is the `compute` parameter; `computePure` below is its
behavior on well-formed string data, where no exception occurs. -/
def calcSingle (compute : SimArgs → Except Str MetricVals) (a : SimArgs) : SimResult :=
  match compute a with
  | .ok m =>
    { id1 := a.id1, id2 := a.id2, seqMetric := m.seqV, cosMetric := m.cosV,
      jacMetric := m.jacV, levMetric := m.levV, tfidfMetric := m.tfidfV,
      combined := m.combinedV, error := none }
  | .error e =>
    { id1 := a.id1, id2 := a.id2, seqMetric := 0, cosMetric := 0, jacMetric := 0,
      levMetric := 0, tfidfMetric := 0, combined := 0, error := some e }

/-- The metric computations of `_calculate_single_similarity` on well-formed
(string) data: they never raise. -/
noncomputable def computePure (a : SimArgs) : Except Str MetricVals :=
  .ok { seqV := sequence_similarity a.text1 a.text2,
        cosV := cosine_similarity a.text1 a.text2,
        jacV := jaccard_similarity (extract_keywords a.text1 3) (extract_keywords a.text2 3),
        levV := levenshtein_similarity a.text1 a.text2,
        tfidfV := tfidf_similarity a.text1 a.text2,
        combinedV := combined_similarity a.text1 a.text2 a.title1 a.title2 }

/-- The argument tuple built in `find_similar_tickets`: note the source passes
the CANDIDATE's id in both id slots. -/
def mkArgs (target cand : Ticket) : SimArgs :=
  { id1 := cand.id, text1 := target.content, title1 := target.title,
    id2 := cand.id, text2 := cand.content, title2 := cand.title }

/-- The collection filter of both batch operations: keep a result iff the
`error` key is absent and `combined >= threshold`. -/
noncomputable def keepResult (threshold : ℝ) (r : SimResult) : Bool :=
  r.error.isNone && decide (threshold ≤ r.combined)

/-- The descending stable sort `similarities.sort(key=combined, reverse=True)`
(Python's sort is stable, and `reverse=True` keeps ties in input order). -/
noncomputable def rankDesc (l : List SimResult) : List SimResult :=
  l.insertionSort (fun x y => y.combined ≤ x.combined)

/-- `SimilarityService.find_similar_tickets`.  `maxItems` is the configured
`similarity_max_items` cap; `poolFails` models whether the
`ProcessPoolExecutor` itself raises (the `except` branch runs the sequential
fallback).  Worker completion order is modelled as submission order, so the
concurrent branch and the sequential fallback compute the same list. -/
noncomputable def find_similar_tickets (compute : SimArgs → Except Str MetricVals)
    (maxItems : ℕ) (poolFails : Bool) (target : Ticket) (candidates : List Ticket)
    (threshold : ℝ) (maxResults : ℕ) : List SimResult :=
  if candidates = [] then []
  else
    let cands := candidates.take maxItems
    let argsList := cands.map (mkArgs target)
    let similarities :=
      if poolFails then (argsList.map (calcSingle compute)).filter (keepResult threshold)
      else (argsList.map (calcSingle compute)).filter (keepResult threshold)
    (rankDesc similarities).take maxResults

/-- All unordered pairs `(tickets[i], tickets[j])`, `i < j`, in the order
generated by the two nested loops of `calculate_similarity_matrix`. -/
def allPairs : List Ticket → List (Ticket × Ticket)
  | [] => []
  | t :: rest => rest.map (fun u => (t, u)) ++ allPairs rest

/-- The argument tuple built in `calculate_similarity_matrix`. -/
def mkPairArgs (t1 t2 : Ticket) : SimArgs :=
  { id1 := t1.id, text1 := t1.content, title1 := t1.title,
    id2 := t2.id, text2 := t2.content, title2 := t2.title }

/-- `SimilarityService.calculate_similarity_matrix`.  Unlike
`find_similar_tickets`, its `except` branch only logs: when the executor
fails, `similarities` stays empty and the function returns `[]` — there is no
sequential fallback in the source. -/
noncomputable def calculate_similarity_matrix (compute : SimArgs → Except Str MetricVals)
    (maxItems : ℕ) (poolFails : Bool) (tickets : List Ticket)
    (threshold : ℝ) : List SimResult :=
  if tickets.length < 2 then []
  else
    let ts := tickets.take maxItems
    let pairs := allPairs ts
    let similarities :=
      if poolFails then []
      else (pairs.map (fun p => calcSingle compute (mkPairArgs p.1 p.2))).filter
        (keepResult threshold)
    rankDesc similarities

theorem jaccard_nonneg (s1 s2 : Finset Str) : 0 ≤ jaccard_similarity s1 s2 := by
  unfold jaccard_similarity
  split
  · norm_num
  · split
    · norm_num
    · dsimp only
      split
      · positivity
      · norm_num

theorem jaccard_le_one (s1 s2 : Finset Str) : jaccard_similarity s1 s2 ≤ 1 := by
  unfold jaccard_similarity
  split
  · norm_num
  · split
    · norm_num
    · dsimp only
      split
      · rename_i hu
        rw [div_le_one (by exact_mod_cast hu)]
        exact_mod_cast Finset.card_le_card (Finset.inter_subset_union)
      · norm_num

theorem seqRatio_nonneg (a b : Str) : 0 ≤ seqRatio a b := by
  unfold seqRatio
  split
  · norm_num
  · positivity

theorem sequence_similarity_nonneg (t1 t2 : Str) : 0 ≤ sequence_similarity t1 t2 := by
  unfold sequence_similarity
  split
  · norm_num
  · exact seqRatio_nonneg _ _

theorem cosine_nonneg (t1 t2 : Str) : 0 ≤ cosine_similarity t1 t2 := by
  unfold cosine_similarity
  split
  · norm_num
  · dsimp only
    split
    · norm_num
    · split
      · norm_num
      · apply div_nonneg
        · exact Finset.sum_nonneg fun w _ => mul_nonneg (Nat.cast_nonneg _) (Nat.cast_nonneg _)
        · exact mul_nonneg (Real.sqrt_nonneg _) (Real.sqrt_nonneg _)

theorem normalize_text_nil : normalize_text [] = [] := rfl

theorem pySplit_nil : pySplit [] = [] := rfl

/-- Shared helper: when the normalized text still has at least one token, the
cosine similarity of a text with itself is exactly 1. -/
theorem cosine_self_eq_one (t : Str) (h : pySplit (normalize_text t) ≠ []) :
    cosine_similarity t t = 1 := by
  have ht : t ≠ [] := by
    intro he
    rw [he, normalize_text_nil, pySplit_nil] at h
    exact h rfl
  unfold cosine_similarity
  rw [if_neg (by simp [ht])]
  dsimp only
  rw [if_neg (by simp [h])]
  set w := pySplit (normalize_text t) with hw
  set vocab := (w ++ w).toFinset with hv
  have hS : 0 < ∑ x ∈ vocab, (w.count x : ℝ) * (w.count x : ℝ) := by
    obtain ⟨c, hc⟩ : ∃ c, c ∈ w := ⟨w.head h, List.head_mem h⟩
    refine Finset.sum_pos' (fun x _ => mul_nonneg (Nat.cast_nonneg _) (Nat.cast_nonneg _)) ?_
    refine ⟨c, ?_, ?_⟩
    · simp [hv, hc]
    · have hcount : 0 < w.count c := List.count_pos_iff.mpr hc
      have hcr : (0 : ℝ) < (w.count c : ℝ) := by exact_mod_cast hcount
      exact mul_pos hcr hcr
  have hsq : Real.sqrt (∑ x ∈ vocab, (w.count x : ℝ) * (w.count x : ℝ)) ≠ 0 := by
    rw [ne_eq, Real.sqrt_eq_zero (le_of_lt hS)]
    exact ne_of_gt hS
  rw [if_neg (by simp [hsq])]
  rw [Real.mul_self_sqrt (le_of_lt hS)]
  exact div_self (ne_of_gt hS)

/-- Shared helper: the concrete Jaccard value on the spec's example pair is
1/3 (intersection of size 1, union of size 3). -/
theorem jaccard_ab_bc : jaccard_similarity {['a'], ['b']} {['b'], ['c']} = 1 / 3 := by
  have hi : (({['a'], ['b']} : Finset Str) ∩ {['b'], ['c']}).card = 1 := by decide
  have hu : (({['a'], ['b']} : Finset Str) ∪ {['b'], ['c']}).card = 3 := by decide
  have h1 : ({['a'], ['b']} : Finset Str) ≠ ∅ := by decide
  have h2 : ({['b'], ['c']} : Finset Str) ≠ ∅ := by decide
  simp [jaccard_similarity, h1, h2, hi, hu]

/-- C9 counterexample: the claim asserts `jaccard({a,b}, {b,c}) = 0.5`, but
the code computes `|A ∩ B| / |A ∪ B| = 1/3` on that pair (0.5 is the value
for three-element sets such as `{a,b,c}` vs `{b,c,d}`, which is what the
repository's own test uses). -/
theorem claim_C9_counterexample :
    jaccard_similarity {['a'], ['b']} {['b'], ['c']} = 1 / 3 ∧ (1 / 3 : ℚ) ≠ 1 / 2 :=
  ⟨jaccard_ab_bc, by norm_num⟩

/-- C9 (amended): Jaccard of two empty sets is 1.0, of an empty and a
non-empty set 0.0 (both orders), of two non-empty sets it is
`|A ∩ B| / |A ∪ B|`; on the spec's concrete pair `{a,b}` vs `{b,c}` this
yields 1/3, not 0.5. -/
theorem claim_C9_jaccard (A B : Finset Str) (hA : A ≠ ∅) (hB : B ≠ ∅) :
    jaccard_similarity ∅ ∅ = 1 ∧
    jaccard_similarity A ∅ = 0 ∧ jaccard_similarity ∅ B = 0 ∧
    jaccard_similarity {['a'], ['b']} {['b'], ['c']} = 1 / 3 ∧
    jaccard_similarity A B = ((A ∩ B).card : ℚ) / ((A ∪ B).card : ℚ) := by
  refine ⟨by simp [jaccard_similarity], ?_, ?_, jaccard_ab_bc, ?_⟩
  · simp [jaccard_similarity, hA]
  · simp [jaccard_similarity, hB]
  · have hu : 0 < (A ∪ B).card :=
      Finset.card_pos.mpr ((Finset.nonempty_iff_ne_empty.mpr hA).mono Finset.subset_union_left)
    simp [jaccard_similarity, hA, hB, hu]

theorem claim_C9_jaccard_witness :
    ({['a'], ['b']} : Finset Str) ≠ ∅ ∧ ({['b'], ['c']} : Finset Str) ≠ ∅ ∧
    jaccard_similarity ∅ ∅ = 1 ∧
    jaccard_similarity {['a'], ['b']} ∅ = 0 ∧
    jaccard_similarity ∅ {['b'], ['c']} = 0 ∧
    jaccard_similarity {['a'], ['b']} {['b'], ['c']} = 1 / 3 ∧
    jaccard_similarity {['a'], ['b']} {['b'], ['c']} =
      ((({['a'], ['b']} : Finset Str) ∩ {['b'], ['c']}).card : ℚ) /
        ((({['a'], ['b']} : Finset Str) ∪ {['b'], ['c']}).card : ℚ) := by
  have h := claim_C9_jaccard {['a'], ['b']} {['b'], ['c']} (by decide) (by decide)
  exact ⟨by decide, by decide, h.1, h.2.1, h.2.2.1, h.2.2.2.1, h.2.2.2.2⟩

/-- C2: `combined_similarity` short-circuits to 0.0 on an empty text (titles
unconsulted), otherwise equals `min(1, 0.30*seq + 0.30*cos + 0.25*jac +
0.15*titleSim)` with `titleSim` the sequence similarity of the titles when
both are non-empty and 0.0 otherwise; the result always lies in [0, 1]. -/
theorem claim_C2_combined (t1 t2 title1 title2 : Str) :
    combined_similarity t1 t2 title1 title2 =
      (if t1 = [] ∨ t2 = [] then 0
       else min 1 (0.30 * (sequence_similarity t1 t2 : ℝ)
         + 0.30 * cosine_similarity t1 t2
         + 0.25 * (jaccard_similarity (extract_keywords t1 3) (extract_keywords t2 3) : ℝ)
         + 0.15 * ((if title1 ≠ [] ∧ title2 ≠ [] then sequence_similarity title1 title2
             else 0 : ℚ) : ℝ))) ∧
    0 ≤ combined_similarity t1 t2 title1 title2 ∧
    combined_similarity t1 t2 title1 title2 ≤ 1 := by
  have hbody : ∀ x : ℝ, 0 ≤ x → 0 ≤ min 1 x ∧ min 1 x ≤ 1 := by
    intro x hx
    exact ⟨le_min (by norm_num) hx, min_le_left _ _⟩
  refine ⟨rfl, ?_, ?_⟩
  · unfold combined_similarity
    split
    · norm_num
    · refine (hbody _ ?_).1
      have h1 : (0 : ℝ) ≤ 0.30 * (sequence_similarity t1 t2 : ℝ) :=
        mul_nonneg (by norm_num) (by exact_mod_cast sequence_similarity_nonneg t1 t2)
      have h2 : (0 : ℝ) ≤ 0.30 * cosine_similarity t1 t2 :=
        mul_nonneg (by norm_num) (cosine_nonneg t1 t2)
      have h3 : (0 : ℝ) ≤ 0.25 *
          (jaccard_similarity (extract_keywords t1 3) (extract_keywords t2 3) : ℝ) :=
        mul_nonneg (by norm_num) (by exact_mod_cast jaccard_nonneg _ _)
      have h4 : (0 : ℝ) ≤ 0.15 * ((if title1 ≠ [] ∧ title2 ≠ [] then
          sequence_similarity title1 title2 else 0 : ℚ) : ℝ) := by
        refine mul_nonneg (by norm_num) ?_
        split
        · exact_mod_cast sequence_similarity_nonneg title1 title2
        · norm_num
      linarith
  · unfold combined_similarity
    split
    · norm_num
    · exact min_le_left _ _

/-- C6 counterexample: `"!"` is a non-empty text, but normalization strips all
of its characters, so the code returns 0.0 for its self-similarity — not
within the claimed 1e-6 of 1.0. -/
theorem claim_C6_counterexample :
    (['!'] : Str) ≠ [] ∧ ¬ |cosine_similarity ['!'] ['!'] - 1| ≤ 1 / 1000000 := by
  refine ⟨by simp, ?_⟩
  have hw : pySplit (normalize_text ['!']) = [] := by decide
  have h0 : cosine_similarity ['!'] ['!'] = 0 := by
    unfold cosine_similarity
    rw [if_neg (by simp)]
    dsimp only
    rw [if_pos (Or.inl hw)]
  rw [h0]
  norm_num

/-- C6 (amended): for every text whose normalized form still contains at least
one token, the cosine self-similarity is exactly 1.0 (hence within any
floating tolerance); for non-empty texts that normalize to nothing, such as
"!", the code returns 0.0 instead. -/
theorem claim_C6_cosine_self (t : Str) (h : pySplit (normalize_text t) ≠ []) :
    cosine_similarity t t = 1 := cosine_self_eq_one t h

theorem claim_C6_cosine_self_witness :
    pySplit (normalize_text ['a', 'b', 'c']) ≠ [] ∧
    cosine_similarity ['a', 'b', 'c'] ['a', 'b', 'c'] = 1 :=
  ⟨by decide, claim_C6_cosine_self ['a', 'b', 'c'] (by decide)⟩

/-- Modelled from the claim's words (C4): similarity `1 - d / max(len1, len2)`
where `d` is the edit distance between the normalized strings and `len1`,
`len2` are the lengths of the two NORMALIZED strings. -/
def levSimSpecC4 (t1 t2 : Str) : ℚ :=
  if t1 = [] ∧ t2 = [] then 1
  else if t1 = [] ∨ t2 = [] then 0
  else
    let n1 := normalize_text t1
    let n2 := normalize_text t2
    1 - (levGrid n1 n2 n1.length n2.length : ℚ) / ((max n1.length n2.length : ℕ) : ℚ)

/-- C4 counterexample: for `"ab!!"` vs `"ba"` the normalized strings are
`"ab"` and `"ba"` with edit distance 2, so the claim's formula (normalized
lengths) gives `1 - 2/2 = 0`, but the code divides by the maximum of the RAW
lengths and returns `1 - 2/4 = 1/2`. -/
theorem claim_C4_counterexample :
    levenshtein_similarity ['a', 'b', '!', '!'] ['b', 'a'] = 1 / 2 ∧
    levSimSpecC4 ['a', 'b', '!', '!'] ['b', 'a'] = 0 ∧
    levenshtein_similarity ['a', 'b', '!', '!'] ['b', 'a'] ≠
      levSimSpecC4 ['a', 'b', '!', '!'] ['b', 'a'] := by
  have hd : levenshtein_distance ['a', 'b', '!', '!'] ['b', 'a'] = 2 := by decide
  have hn1 : normalize_text ['a', 'b', '!', '!'] = ['a', 'b'] := by decide
  have hn2 : normalize_text ['b', 'a'] = ['b', 'a'] := by decide
  have hg : levGrid ['a', 'b'] ['b', 'a'] 2 2 = 2 := by decide
  have h1 : levenshtein_similarity ['a', 'b', '!', '!'] ['b', 'a'] = 1 / 2 := by
    simp [levenshtein_similarity, hd]
    norm_num
  have h2 : levSimSpecC4 ['a', 'b', '!', '!'] ['b', 'a'] = 0 := by
    simp [levSimSpecC4, hn1, hn2, hg]
  exact ⟨h1, h2, by rw [h1, h2]; norm_num⟩

/-- C4 (amended): both texts empty gives 1.0, exactly one empty gives 0.0, and
otherwise `levenshtein_similarity` is `1 - d / max(rawLen1, rawLen2)` where
`d` is the DP edit distance between the two NORMALIZED strings but the divisor
is the maximum of the two RAW input lengths (not the normalized lengths the
claim states). -/
theorem claim_C4_levenshtein (t1 t2 : Str) :
    levenshtein_similarity t1 t2 =
      if t1 = [] ∧ t2 = [] then 1
      else if t1 = [] ∨ t2 = [] then 0
      else 1 - ((levGrid (normalize_text t1) (normalize_text t2)
          (normalize_text t1).length (normalize_text t2).length : ℕ) : ℚ) /
        ((max t1.length t2.length : ℕ) : ℚ) := by
  unfold levenshtein_similarity
  by_cases h12 : t1 = [] ∧ t2 = []
  · rw [if_pos h12, if_pos h12]
  · rw [if_neg h12, if_neg h12]
    by_cases hor : t1 = [] ∨ t2 = []
    · rw [if_pos hor, if_pos hor]
    · rw [if_neg hor, if_neg hor]
      push_neg at hor
      obtain ⟨h1, h2⟩ := hor
      have hmax : 0 < max t1.length t2.length := by
        have : 0 < t1.length := List.length_pos.mpr h1
        omega
      rw [if_pos hmax]
      unfold levenshtein_distance
      rw [if_neg h1, if_neg h2]

theorem lookup_eq_none_of_forall {β : Type _} (l : List (Char × β)) (a : Char)
    (h : ∀ p ∈ l, p.1 ≠ a) : l.lookup a = none := by
  induction l with
  | nil => rfl
  | cons p ps ih =>
    rcases p with ⟨k, v⟩
    rw [List.lookup]
    have hk : (a == k) = false := by
      have hne := h (k, v) (List.mem_cons_self _ _)
      simp only [ne_eq] at hne
      rw [beq_eq_false_iff_ne]
      exact fun he => hne he.symm
    rw [hk]
    exact ih fun p hp => h p (List.mem_cons_of_mem _ hp)

theorem mem_of_lookup_eq_some {β : Type _} {l : List (Char × β)} {a : Char} {b : β}
    (h : l.lookup a = some b) : (a, b) ∈ l := by
  induction l with
  | nil => simp [List.lookup] at h
  | cons p ps ih =>
    rcases p with ⟨k, v⟩
    rw [List.lookup] at h
    cases hak : a == k with
    | true =>
      rw [hak] at h
      simp only at h
      have hv : v = b := Option.some.inj h
      have ha : a = k := eq_of_beq hak
      rw [ha, hv]
      exact List.mem_cons_self _ _
    | false =>
      rw [hak] at h
      simp only at h
      exact List.mem_cons_of_mem _ (ih h)

theorem char_toNat_ofNat (n : ℕ) (h : n < 55296) : (Char.ofNat n).toNat = n := by
  rw [Char.ofNat, dif_pos (Or.inl h)]
  rfl

theorem toLower_eq_of_not_upper (c : Char) (h : ¬(c.toNat ≥ 65 ∧ c.toNat ≤ 90)) :
    c.toLower = c := by
  simp only [Char.toLower]
  exact if_neg h

theorem toLower_toNat_of_upper (c : Char) (h : c.toNat ≥ 65 ∧ c.toNat ≤ 90) :
    (c.toLower).toNat = c.toNat + 32 := by
  simp only [Char.toLower]
  rw [if_pos h]
  exact char_toNat_ofNat _ (by omega)

theorem factNfdVals : ∀ p ∈ nfdTable, ∀ c ∈ p.2,
    pyLowerChar c = c ∧ nfdChar c = [c] := by decide

theorem factAccVals : ∀ p ∈ accentUpperLower, pyLowerChar p.2 = p.2 := by decide

theorem factAccKeys : ∀ p ∈ accentUpperLower, 192 ≤ p.1.toNat := by decide

theorem pyLower_idem (x : Char) : pyLowerChar (pyLowerChar x) = pyLowerChar x := by
  cases hl : accentUpperLower.lookup x with
  | some l =>
    have hx : pyLowerChar x = l := by rw [pyLowerChar, hl]
    rw [hx]
    exact factAccVals (x, l) (mem_of_lookup_eq_some hl)
  | none =>
    have hx : pyLowerChar x = x.toLower := by rw [pyLowerChar, hl]
    rw [hx]
    by_cases hu : x.toNat ≥ 65 ∧ x.toNat ≤ 90
    · have ht : (x.toLower).toNat = x.toNat + 32 := toLower_toNat_of_upper x hu
      have hlk : accentUpperLower.lookup x.toLower = none := by
        apply lookup_eq_none_of_forall
        intro p hp hpe
        have hk := factAccKeys p hp
        rw [hpe] at hk
        omega
      rw [pyLowerChar, hlk]
      exact toLower_eq_of_not_upper _ (by omega)
    · have ht : x.toLower = x := toLower_eq_of_not_upper x hu
      rw [ht, pyLowerChar, hl, ht]

/-- Every character produced by the lower-then-NFD stage is itself fixed by
both lowering and NFD decomposition. -/
theorem nfd_pyLower_fixed (x : Char) : ∀ c ∈ nfdChar (pyLowerChar x),
    pyLowerChar c = c ∧ nfdChar c = [c] := by
  intro c hc
  rw [nfdChar] at hc
  cases hn : nfdTable.lookup (pyLowerChar x) with
  | some d =>
    rw [hn] at hc
    simp only [Option.getD_some] at hc
    exact factNfdVals _ (mem_of_lookup_eq_some hn) c hc
  | none =>
    rw [hn] at hc
    simp only [Option.getD_none, List.mem_singleton] at hc
    subst hc
    refine ⟨pyLower_idem x, ?_⟩
    rw [nfdChar, hn]
    rfl

theorem wordChar_not_space (c : Char) (h : pyIsWordChar c = true) :
    pyIsSpaceChar c = false := by
  by_contra hs
  rw [Bool.not_eq_false] at hs
  simp only [pyIsSpaceChar, Bool.or_eq_true, decide_eq_true_eq] at hs
  rcases hs with ((((rfl | rfl) | rfl) | rfl) | rfl) | rfl <;> exact absurd h (by decide)

theorem subNonWord_chars (l : Str) : ∀ c ∈ subNonWord l,
    (pyIsWordChar c = true ∨ pyIsSpaceChar c = true) ∧ (c = ' ' ∨ c ∈ l) := by
  intro c hc
  rw [subNonWord, List.mem_map] at hc
  obtain ⟨x, hx, rfl⟩ := hc
  by_cases hcond : (!pyIsWordChar x && !pyIsSpaceChar x) = true
  · rw [if_pos hcond]
    exact ⟨Or.inr (by decide), Or.inl rfl⟩
  · rw [if_neg hcond]
    refine ⟨?_, Or.inr hx⟩
    by_cases hw : pyIsWordChar x = true
    · exact Or.inl hw
    · right
      rw [Bool.not_eq_true] at hw
      by_contra hs
      rw [Bool.not_eq_true] at hs
      exact hcond (by rw [hw, hs]; rfl)

theorem collapseWs_chars (l : Str) : ∀ c ∈ collapseWs l,
    c = ' ' ∨ (c ∈ l ∧ pyIsSpaceChar c = false) := by
  induction l using collapseWs.induct with
  | case1 => intro c hc; simp [collapseWs] at hc
  | case2 d hd =>
    intro c hc
    rw [collapseWs, if_pos hd] at hc
    simp only [List.mem_singleton] at hc
    exact Or.inl hc
  | case3 d hd =>
    intro c hc
    rw [collapseWs, if_neg hd] at hc
    simp only [List.mem_singleton] at hc
    subst hc
    exact Or.inr ⟨List.mem_singleton_self _, by simpa using hd⟩
  | case4 c₁ c₂ rest hcond ih =>
    intro c hc
    rw [collapseWs, if_pos hcond] at hc
    rcases ih c hc with h | ⟨hm, hs⟩
    · exact Or.inl h
    · exact Or.inr ⟨List.mem_cons_of_mem _ hm, hs⟩
  | case5 c₁ c₂ rest hcond ih =>
    intro c hc
    rw [collapseWs, if_neg hcond] at hc
    rcases List.mem_cons.mp hc with h | h
    · subst h
      by_cases h1 : pyIsSpaceChar c₁ = true
      · rw [if_pos h1]
        exact Or.inl rfl
      · rw [if_neg h1]
        exact Or.inr ⟨List.mem_cons_self _ _, by simpa using h1⟩
    · rcases ih c h with h' | ⟨hm, hs⟩
      · exact Or.inl h'
      · exact Or.inr ⟨List.mem_cons_of_mem _ hm, hs⟩

theorem collapseWs_head (c : Char) (rest : Str) :
    (collapseWs (c :: rest)).head? = some (if pyIsSpaceChar c then ' ' else c) := by
  induction rest generalizing c with
  | nil =>
    rw [collapseWs]
    by_cases h : pyIsSpaceChar c = true
    · rw [if_pos h, if_pos h]; rfl
    · rw [if_neg h, if_neg h]; rfl
  | cons d rest ih =>
    rw [collapseWs]
    by_cases hcd : (pyIsSpaceChar c && pyIsSpaceChar d) = true
    · rw [if_pos hcd]
      rw [Bool.and_eq_true] at hcd
      rw [ih d, if_pos hcd.2, if_pos hcd.1]
    · rw [if_neg hcd]
      rfl

theorem collapseWs_chain (l : Str) :
    (collapseWs l).Chain' (fun x y => ¬(pyIsSpaceChar x = true ∧ pyIsSpaceChar y = true)) := by
  induction l using collapseWs.induct with
  | case1 => simp [collapseWs]
  | case2 d hd =>
    rw [collapseWs, if_pos hd]
    simp
  | case3 d hd =>
    rw [collapseWs, if_neg hd]
    simp
  | case4 c₁ c₂ rest hcond ih =>
    rw [collapseWs, if_pos hcond]
    exact ih
  | case5 c₁ c₂ rest hcond ih =>
    rw [collapseWs, if_neg hcond]
    rw [List.chain'_cons']
    refine ⟨?_, ih⟩
    intro y hy
    rw [collapseWs_head c₂ rest, Option.mem_def] at hy
    have hy' : y = if pyIsSpaceChar c₂ then ' ' else c₂ := Option.some.inj hy.symm
    rintro ⟨hx, hys⟩
    by_cases h1 : pyIsSpaceChar c₁ = true
    · have h2 : pyIsSpaceChar c₂ = false := by
        by_contra h2
        rw [Bool.not_eq_false] at h2
        exact hcond (by rw [h1, h2]; rfl)
      rw [if_neg (by simp [h2])] at hy'
      rw [hy'] at hys
      rw [h2] at hys
      exact Bool.false_ne_true hys
    · rw [if_neg h1] at hx
      exact h1 hx

theorem dropWhile_head_not (p : Char → Bool) (l : Str) :
    ∀ c ∈ (l.dropWhile p).head?, p c = false := by
  intro c hc
  have h := List.head?_dropWhile_not p l
  rw [Option.mem_def] at hc
  rw [hc] at h
  exact h

theorem pyStrip_subset (l : Str) : ∀ c ∈ pyStrip l, c ∈ l := by
  intro c hc
  rw [pyStrip, List.mem_reverse] at hc
  have h1 : c ∈ (l.dropWhile pyIsSpaceChar).reverse :=
    (List.dropWhile_suffix _).subset hc
  rw [List.mem_reverse] at h1
  exact (List.dropWhile_suffix _).subset h1

theorem pyStrip_chain (l : Str)
    (h : l.Chain' (fun x y => ¬(pyIsSpaceChar x = true ∧ pyIsSpaceChar y = true))) :
    (pyStrip l).Chain' (fun x y => ¬(pyIsSpaceChar x = true ∧ pyIsSpaceChar y = true)) := by
  rw [pyStrip]
  rw [List.chain'_reverse]
  have h2 : ((l.dropWhile pyIsSpaceChar).reverse.dropWhile pyIsSpaceChar).Chain'
      (fun x y => ¬(pyIsSpaceChar x = true ∧ pyIsSpaceChar y = true)) := by
    refine List.Chain'.suffix ?_ (List.dropWhile_suffix _)
    rw [List.chain'_reverse]
    refine (List.Chain'.suffix h (List.dropWhile_suffix _)).imp ?_
    intro x y hxy
    rw [Function.flip_def]
    rintro ⟨ha, hb⟩
    exact hxy ⟨hb, ha⟩
  refine h2.imp ?_
  intro x y hxy
  rw [Function.flip_def]
  rintro ⟨ha, hb⟩
  exact hxy ⟨hb, ha⟩

theorem pyStrip_head (l : Str) : ∀ c ∈ (pyStrip l).head?, pyIsSpaceChar c = false := by
  intro c hc
  rw [pyStrip, List.head?_reverse] at hc
  obtain ⟨t, ht⟩ :=
    List.dropWhile_suffix (l := (l.dropWhile pyIsSpaceChar).reverse) pyIsSpaceChar
  have hY : ((l.dropWhile pyIsSpaceChar).reverse).getLast? = some c := by
    rw [← ht, List.getLast?_append, Option.mem_def.mp hc]
    rfl
  rw [List.getLast?_eq_head?_reverse, List.reverse_reverse] at hY
  exact dropWhile_head_not pyIsSpaceChar l c hY

theorem pyStrip_last (l : Str) : ∀ c ∈ (pyStrip l).getLast?, pyIsSpaceChar c = false := by
  intro c hc
  rw [pyStrip, List.getLast?_eq_head?_reverse, List.reverse_reverse] at hc
  exact dropWhile_head_not _ _ c hc

/-- Characters of normalized output: word characters or the single space, all
fixed points of lowering and NFD, and never combining marks. -/
theorem normalize_chars (s : Str) : ∀ c ∈ normalize_text s,
    (pyIsWordChar c = true ∨ c = ' ') ∧ isMnChar c = false ∧
    pyLowerChar c = c ∧ nfdChar c = [c] := by
  intro c hc
  rw [normalize_text] at hc
  by_cases hs : s = []
  · rw [if_pos hs] at hc; simp at hc
  · rw [if_neg hs] at hc
    have h1 := pyStrip_subset _ c hc
    rcases collapseWs_chars _ c h1 with rfl | ⟨h2, hns⟩
    · exact ⟨Or.inr rfl, by decide, by decide, by decide⟩
    · have h3 := subNonWord_chars _ c h2
      have hword : pyIsWordChar c = true := by
        rcases h3.1 with h | h
        · exact h
        · rw [h] at hns; exact absurd hns (by simp)
      rcases h3.2 with rfl | hmem
      · exact absurd hns (by decide)
      · rw [List.mem_filter] at hmem
        obtain ⟨hmem2, hMn⟩ := hmem
        rw [List.mem_flatMap] at hmem2
        obtain ⟨a, ha, hca⟩ := hmem2
        rw [List.mem_map] at ha
        obtain ⟨x, hx, rfl⟩ := ha
        have hR := nfd_pyLower_fixed x c hca
        refine ⟨Or.inl hword, by simpa using hMn, hR.1, hR.2⟩

/-- No two adjacent whitespace characters survive normalization. -/
theorem normalize_space_chain (s : Str) :
    (normalize_text s).Chain'
      (fun x y => ¬(pyIsSpaceChar x = true ∧ pyIsSpaceChar y = true)) := by
  rw [normalize_text]
  by_cases hs : s = []
  · rw [if_pos hs]; simp
  · rw [if_neg hs]
    exact pyStrip_chain _ (collapseWs_chain _)

theorem normalize_head_not_space (s : Str) :
    ∀ c ∈ (normalize_text s).head?, pyIsSpaceChar c = false := by
  intro c hc
  rw [normalize_text] at hc
  by_cases hs : s = []
  · rw [if_pos hs] at hc; simp at hc
  · rw [if_neg hs] at hc
    exact pyStrip_head _ c hc

theorem normalize_last_not_space (s : Str) :
    ∀ c ∈ (normalize_text s).getLast?, pyIsSpaceChar c = false := by
  intro c hc
  rw [normalize_text] at hc
  by_cases hs : s = []
  · rw [if_pos hs] at hc; simp at hc
  · rw [if_neg hs] at hc
    exact pyStrip_last _ c hc

theorem map_eq_self_of {α : Type _} (l : List α) (f : α → α) (h : ∀ c ∈ l, f c = c) :
    l.map f = l := by
  induction l with
  | nil => rfl
  | cons x xs ih =>
    rw [List.map_cons, h x (List.mem_cons_self _ _),
      ih fun c hc => h c (List.mem_cons_of_mem _ hc)]

theorem flatMap_eq_self_of {α : Type _} (l : List α) (f : α → List α)
    (h : ∀ c ∈ l, f c = [c]) : l.flatMap f = l := by
  induction l with
  | nil => rfl
  | cons x xs ih =>
    rw [List.flatMap_cons, h x (List.mem_cons_self _ _),
      ih fun c hc => h c (List.mem_cons_of_mem _ hc)]
    rfl

theorem collapseWs_eq_self (l : Str)
    (hsp : ∀ c ∈ l, pyIsSpaceChar c = true → c = ' ')
    (hch : l.Chain' (fun x y => ¬(pyIsSpaceChar x = true ∧ pyIsSpaceChar y = true))) :
    collapseWs l = l := by
  induction l using collapseWs.induct with
  | case1 => rfl
  | case2 d hd =>
    rw [collapseWs, if_pos hd, hsp d (List.mem_singleton_self _) hd]
  | case3 d hd => rw [collapseWs, if_neg hd]
  | case4 c₁ c₂ rest hcond ih =>
    exfalso
    rw [Bool.and_eq_true] at hcond
    exact (List.chain'_cons.mp hch).1 ⟨hcond.1, hcond.2⟩
  | case5 c₁ c₂ rest hcond ih =>
    rw [collapseWs, if_neg hcond]
    rw [ih (fun c hc hsc => hsp c (List.mem_cons_of_mem _ hc) hsc)
      (List.chain'_cons.mp hch).2]
    by_cases h1 : pyIsSpaceChar c₁ = true
    · rw [if_pos h1, hsp c₁ (List.mem_cons_self _ _) h1]
    · rw [if_neg h1]

theorem dropWhile_eq_self_of (p : Char → Bool) (l : Str)
    (h : ∀ c ∈ l.head?, p c = false) : l.dropWhile p = l := by
  cases l with
  | nil => rfl
  | cons x xs =>
    rw [List.dropWhile_cons, h x rfl]
    simp

theorem pyStrip_eq_self (l : Str)
    (hh : ∀ c ∈ l.head?, pyIsSpaceChar c = false)
    (hl : ∀ c ∈ l.getLast?, pyIsSpaceChar c = false) :
    pyStrip l = l := by
  rw [pyStrip, dropWhile_eq_self_of _ l hh,
    dropWhile_eq_self_of _ l.reverse (by rw [List.head?_reverse]; exact hl)]
  exact List.reverse_reverse l

/-- Shared helper: `normalize_text` is idempotent. -/
theorem normalize_text_idem (s : Str) :
    normalize_text (normalize_text s) = normalize_text s := by
  by_cases hout : normalize_text s = []
  · rw [hout]; rfl
  · have hchars := normalize_chars s
    conv_lhs => rw [normalize_text]
    rw [if_neg hout]
    rw [map_eq_self_of (normalize_text s) pyLowerChar (fun c hc => (hchars c hc).2.2.1)]
    rw [flatMap_eq_self_of (normalize_text s) nfdChar (fun c hc => (hchars c hc).2.2.2)]
    rw [List.filter_eq_self.mpr
      (fun c hc => by rw [Bool.not_eq_true', (hchars c hc).2.1])]
    rw [subNonWord, map_eq_self_of (normalize_text s) _ (fun c hc => by
      rcases (hchars c hc).1 with hw | hsp
      · exact if_neg (by simp [hw])
      · rw [hsp]; exact if_neg (by decide))]
    rw [collapseWs_eq_self (normalize_text s)
      (fun c hc hsc => by
        rcases (hchars c hc).1 with hw | hsp
        · rw [wordChar_not_space c hw] at hsc
          exact absurd hsc (by simp)
        · exact hsp)
      (normalize_space_chain s)]
    exact pyStrip_eq_self (normalize_text s) (normalize_head_not_space s)
      (normalize_last_not_space s)

/-- C8: normalization is idempotent, and its output consists only of word
characters — never combining marks — and single separating spaces, with no
leading or trailing whitespace. -/
theorem claim_C8_normalize (s : Str) :
    normalize_text (normalize_text s) = normalize_text s ∧
    (∀ c ∈ normalize_text s, (pyIsWordChar c = true ∨ c = ' ') ∧ isMnChar c = false) ∧
    (normalize_text s).Chain' (fun x y => ¬(x = ' ' ∧ y = ' ')) ∧
    (∀ c ∈ (normalize_text s).head?, c ≠ ' ') ∧
    (∀ c ∈ (normalize_text s).getLast?, c ≠ ' ') := by
  refine ⟨normalize_text_idem s,
    fun c hc => ⟨(normalize_chars s c hc).1, (normalize_chars s c hc).2.1⟩, ?_, ?_, ?_⟩
  · refine (normalize_space_chain s).imp ?_
    intro x y hxy
    rintro ⟨rfl, rfl⟩
    exact hxy ⟨by decide, by decide⟩
  · intro c hc he
    have hns := normalize_head_not_space s c hc
    rw [he] at hns
    exact absurd hns (by decide)
  · intro c hc he
    have hns := normalize_last_not_space s c hc
    rw [he] at hns
    exact absurd hns (by decide)

theorem of_keepResult {threshold : ℝ} {r : SimResult} (h : keepResult threshold r = true) :
    r.error = none ∧ threshold ≤ r.combined := by
  rw [keepResult, Bool.and_eq_true] at h
  refine ⟨?_, of_decide_eq_true h.2⟩
  have h1 := h.1
  rwa [Option.isNone_iff_eq_none] at h1

theorem rankDesc_sorted (l : List SimResult) :
    (rankDesc l).Sorted (fun x y => y.combined ≤ x.combined) := by
  haveI : IsTotal SimResult (fun x y => y.combined ≤ x.combined) :=
    ⟨fun a b => le_total b.combined a.combined⟩
  haveI : IsTrans SimResult (fun x y => y.combined ≤ x.combined) :=
    ⟨fun a b c hab hbc => le_trans hbc hab⟩
  exact List.sorted_insertionSort _ l

theorem mem_rankDesc {l : List SimResult} {r : SimResult} :
    r ∈ rankDesc l ↔ r ∈ l := List.mem_insertionSort _

/-- The two batch operations, with the branch on `poolFails` resolved: both
paths compute the same filter-sort-truncate pipeline. -/
theorem find_similar_eq (compute : SimArgs → Except Str MetricVals) (maxItems : ℕ)
    (poolFails : Bool) (target : Ticket) (candidates : List Ticket) (threshold : ℝ)
    (maxResults : ℕ) :
    find_similar_tickets compute maxItems poolFails target candidates threshold maxResults =
      if candidates = [] then []
      else (rankDesc ((((candidates.take maxItems).map (mkArgs target)).map
        (calcSingle compute)).filter (keepResult threshold))).take maxResults := by
  rw [find_similar_tickets]
  cases poolFails <;> rfl

theorem matrix_eq (compute : SimArgs → Except Str MetricVals) (maxItems : ℕ)
    (poolFails : Bool) (tickets : List Ticket) (threshold : ℝ) :
    calculate_similarity_matrix compute maxItems poolFails tickets threshold =
      if tickets.length < 2 then []
      else if poolFails then []
      else rankDesc (((allPairs (tickets.take maxItems)).map
        (fun p => calcSingle compute (mkPairArgs p.1 p.2))).filter (keepResult threshold)) := by
  rw [calculate_similarity_matrix]
  cases poolFails <;> rfl

/-- C1: the list returned by `find_similar_tickets` is sorted by combined
score in descending order, has length at most `maxResults`, and every entry
meets the threshold. -/
theorem claim_C1_find_similar (maxItems : ℕ) (poolFails : Bool) (target : Ticket)
    (candidates : List Ticket) (threshold : ℝ) (maxResults : ℕ) :
    (find_similar_tickets computePure maxItems poolFails target candidates threshold
        maxResults).Sorted (fun x y => y.combined ≤ x.combined) ∧
    (find_similar_tickets computePure maxItems poolFails target candidates threshold
        maxResults).length ≤ maxResults ∧
    ∀ r ∈ find_similar_tickets computePure maxItems poolFails target candidates threshold
        maxResults, threshold ≤ r.combined := by
  rw [find_similar_eq]
  split
  · simp [List.Sorted]
  · refine ⟨?_, ?_, ?_⟩
    · exact (rankDesc_sorted _).sublist (List.take_sublist _ _)
    · exact List.length_take_le _ _
    · intro r hr
      have h1 : r ∈ rankDesc _ := (List.take_sublist _ _).subset hr
      have h2 := mem_rankDesc.mp h1
      exact (of_keepResult (List.of_mem_filter h2)).2

theorem orderedInsert_eq_cons (x : SimResult) (M : List SimResult)
    (h : ∀ z ∈ M, z.combined ≤ x.combined) :
    M.orderedInsert (fun a b => b.combined ≤ a.combined) x = x :: M := by
  cases M with
  | nil => rfl
  | cons m ms =>
    rw [List.orderedInsert, if_pos (h m (List.mem_cons_self _ _))]

theorem filter_orderedInsert_pos (p : SimResult → Bool) (x : SimResult)
    (S : List SimResult) (hS : S.Sorted (fun a b => b.combined ≤ a.combined))
    (hx : p x = true) :
    (S.orderedInsert (fun a b => b.combined ≤ a.combined) x).filter p =
      (S.filter p).orderedInsert (fun a b => b.combined ≤ a.combined) x := by
  induction S with
  | nil => simp [List.orderedInsert, hx]
  | cons y ys ih =>
    rw [List.orderedInsert]
    by_cases hr : y.combined ≤ x.combined
    · rw [if_pos hr, List.filter_cons, if_pos hx]
      rw [orderedInsert_eq_cons x ((y :: ys).filter p)]
      intro z hz
      have hz' := List.mem_of_mem_filter hz
      rcases List.mem_cons.mp hz' with rfl | hmem
      · exact hr
      · exact le_trans (List.rel_of_sorted_cons hS z hmem) hr
    · rw [if_neg hr, List.filter_cons]
      by_cases hy : p y = true
      · rw [if_pos hy, List.filter_cons, if_pos hy, List.orderedInsert, if_neg hr,
          ih hS.of_cons]
      · rw [if_neg hy, List.filter_cons, if_neg hy, ih hS.of_cons]

theorem filter_orderedInsert_neg (p : SimResult → Bool) (x : SimResult)
    (S : List SimResult) (hx : p x = false) :
    (S.orderedInsert (fun a b => b.combined ≤ a.combined) x).filter p = S.filter p := by
  rw [List.orderedInsert_eq_take_drop, List.filter_append, List.filter_cons, hx]
  simp only [Bool.false_eq_true, if_false]
  rw [← List.filter_append, List.takeWhile_append_dropWhile]

/-- A stable sort commutes with filtering. -/
theorem rankDesc_filter_comm (p : SimResult → Bool) (l : List SimResult) :
    (rankDesc l).filter p = rankDesc (l.filter p) := by
  induction l with
  | nil => rfl
  | cons x xs ih =>
    rw [rankDesc, List.insertionSort]
    have hsort : List.insertionSort (fun x y => y.combined ≤ x.combined) xs =
        rankDesc xs := rfl
    rw [hsort]
    by_cases hx : p x = true
    · rw [filter_orderedInsert_pos p x (rankDesc xs) (rankDesc_sorted xs) hx, ih,
        List.filter_cons, if_pos hx]
      rfl
    · rw [Bool.not_eq_true] at hx
      rw [filter_orderedInsert_neg p x (rankDesc xs) hx, ih]
      simp only [List.filter_cons, hx, Bool.false_eq_true, if_false]

/-- In a descending-sorted list whose entries are all error-free, filtering by
a threshold keeps exactly an initial segment. -/
theorem filter_eq_takeWhile_of_sorted (thr : ℝ) (S : List SimResult)
    (hS : S.Sorted (fun a b => b.combined ≤ a.combined))
    (herr : ∀ r ∈ S, r.error = none) :
    S.filter (keepResult thr) = S.takeWhile (keepResult thr) := by
  induction S with
  | nil => rfl
  | cons x xs ih =>
    rw [List.filter_cons, List.takeWhile_cons]
    by_cases hx : keepResult thr x = true
    · rw [if_pos hx, if_pos hx,
        ih hS.of_cons fun r hr => herr r (List.mem_cons_of_mem _ hr)]
    · rw [if_neg hx, if_neg hx]
      rw [List.filter_eq_nil_iff]
      intro r hr
      have hrc : r.combined ≤ x.combined := List.rel_of_sorted_cons hS r hr
      intro hk
      apply hx
      obtain ⟨he, hc⟩ := of_keepResult hk
      rw [keepResult, Option.isNone_iff_eq_none.mpr (herr x (List.mem_cons_self _ _))]
      rw [Bool.true_and]
      exact decide_eq_true (le_trans hc hrc)

theorem take_prefix_of_prefix {α : Type _} {P L : List α} (h : P <+: L) (k : ℕ) :
    P.take k <+: L.take k := by
  obtain ⟨t, rfl⟩ := h
  rw [List.take_append_eq_append_take]
  exact ⟨List.take (k - P.length) t, rfl⟩

/-- Raising the threshold never adds results: membership version. -/
theorem find_similar_threshold_subset (compute : SimArgs → Except Str MetricVals)
    (maxItems : ℕ) (poolFails : Bool) (target : Ticket) (candidates : List Ticket)
    (maxResults : ℕ) {thrLo thrHi : ℝ} (hth : thrLo ≤ thrHi) :
    ∀ r ∈ find_similar_tickets compute maxItems poolFails target candidates thrHi maxResults,
      r ∈ find_similar_tickets compute maxItems poolFails target candidates thrLo maxResults := by
  intro r hr
  rw [find_similar_eq] at hr ⊢
  by_cases hc : candidates = []
  · rw [if_pos hc] at hr
    simp at hr
  · rw [if_neg hc] at hr ⊢
    set L := (((candidates.take maxItems).map (mkArgs target)).map
      (calcSingle compute)) with hL
    have himp : ∀ s : SimResult, keepResult thrHi s = true → keepResult thrLo s = true := by
      intro s hs
      obtain ⟨he, hcm⟩ := of_keepResult hs
      rw [keepResult, Option.isNone_iff_eq_none.mpr he, Bool.true_and]
      exact decide_eq_true (le_trans hth hcm)
    have hff : L.filter (keepResult thrHi) = (L.filter (keepResult thrLo)).filter
        (keepResult thrHi) := by
      rw [List.filter_filter]
      apply List.filter_congr
      intro a _
      cases hka : keepResult thrHi a
      · rw [Bool.false_and]
      · rw [Bool.true_and]
        exact (himp a hka).symm
    rw [hff, ← rankDesc_filter_comm] at hr
    have herr : ∀ s ∈ rankDesc (L.filter (keepResult thrLo)), s.error = none := by
      intro s hs
      exact (of_keepResult (List.of_mem_filter (mem_rankDesc.mp hs))).1
    rw [filter_eq_takeWhile_of_sorted thrHi _ (rankDesc_sorted _) herr] at hr
    have hpre : ((rankDesc (L.filter (keepResult thrLo))).takeWhile
        (keepResult thrHi)).take maxResults <+:
        (rankDesc (L.filter (keepResult thrLo))).take maxResults :=
      take_prefix_of_prefix (List.takeWhile_prefix _) maxResults
    exact hpre.subset hr

/-- C7: the ids returned at threshold 0.9 are a subset of those returned at
threshold 0.1, for the same target, candidates and result cap. -/
theorem claim_C7_threshold_monotone (maxItems : ℕ) (poolFails : Bool) (target : Ticket)
    (candidates : List Ticket) (maxResults : ℕ) :
    ∀ i ∈ (find_similar_tickets computePure maxItems poolFails target candidates
        (0.9 : ℝ) maxResults).map SimResult.id1,
      i ∈ (find_similar_tickets computePure maxItems poolFails target candidates
        (0.1 : ℝ) maxResults).map SimResult.id1 := by
  intro i hi
  rw [List.mem_map] at hi ⊢
  obtain ⟨r, hr, rfl⟩ := hi
  exact ⟨r, find_similar_threshold_subset computePure maxItems poolFails target candidates
    maxResults (by norm_num) r hr, rfl⟩

theorem calcSingle_error_eq (compute : SimArgs → Except Str MetricVals) (a : SimArgs)
    (e : Str) (h : compute a = .error e) :
    calcSingle compute a =
      { id1 := a.id1, id2 := a.id2, seqMetric := 0, cosMetric := 0, jacMetric := 0,
        levMetric := 0, tfidfMetric := 0, combined := 0, error := some e } := by
  rw [calcSingle, h]

/-- Dropping the one failing candidate from the batch does not change the
filtered result set: its error result is discarded by the collector anyway. -/
theorem filter_map_erase (compute : SimArgs → Except Str MetricVals) (target : Ticket)
    (bad : Ticket) (e : Str) (h1 : compute (mkArgs target bad) = .error e) :
    ∀ l : List Ticket,
      ((l.map (mkArgs target)).map (calcSingle compute)).filter (keepResult thr) =
        (((l.erase bad).map (mkArgs target)).map (calcSingle compute)).filter
          (keepResult thr) := by
  intro l
  induction l with
  | nil => rfl
  | cons t ts ih =>
    by_cases ht : t = bad
    · subst ht
      rw [List.erase_cons_head, List.map_cons, List.map_cons, List.filter_cons]
      have hk : keepResult thr (calcSingle compute (mkArgs target t)) = false := by
        rw [calcSingle_error_eq compute _ e h1, keepResult]
        simp
      rw [hk]
      simp only [Bool.false_eq_true, if_false]
    · have hbt : ((t : Ticket) == bad) = false := beq_eq_false_iff_ne.mpr ht
      rw [List.erase_cons, hbt]
      simp only [Bool.false_eq_true, if_false]
      rw [List.map_cons, List.map_cons, List.filter_cons,
        List.map_cons, List.map_cons, List.filter_cons, ih]

/-- C3: when the pairwise computation fails for one candidate in the batch,
the per-candidate layer emits a result whose error field is populated and
whose combined is 0.0, and the batch output equals the output on the
remaining candidates — up to N-1 results, never zero because of the one bad
candidate. -/
theorem claim_C3_isolation (compute : SimArgs → Except Str MetricVals) (maxItems : ℕ)
    (poolFails : Bool) (target : Ticket) (candidates : List Ticket) (threshold : ℝ)
    (maxResults : ℕ) (bad : Ticket) (e : Str)
    (hfail : compute (mkArgs target bad) = .error e)
    (hmem : bad ∈ candidates) (hlen : candidates.length ≤ maxItems) :
    (calcSingle compute (mkArgs target bad)).error = some e ∧
    (calcSingle compute (mkArgs target bad)).combined = 0 ∧
    find_similar_tickets compute maxItems poolFails target candidates threshold maxResults =
      find_similar_tickets compute maxItems poolFails target (candidates.erase bad)
        threshold maxResults ∧
    (find_similar_tickets compute maxItems poolFails target candidates threshold
        maxResults).length ≤ candidates.length - 1 := by
  have herase : (candidates.erase bad).length = candidates.length - 1 :=
    List.length_erase_of_mem hmem
  have hfe : ((candidates.map (mkArgs target)).map (calcSingle compute)).filter
      (keepResult threshold) =
      (((candidates.erase bad).map (mkArgs target)).map (calcSingle compute)).filter
        (keepResult threshold) :=
    filter_map_erase compute target bad e hfail candidates
  have hne : candidates ≠ [] := List.ne_nil_of_mem hmem
  refine ⟨by rw [calcSingle_error_eq compute _ e hfail], by rw [calcSingle_error_eq compute _ e hfail], ?_, ?_⟩
  · rw [find_similar_eq, find_similar_eq, if_neg hne]
    have htake1 : candidates.take maxItems = candidates := List.take_of_length_le hlen
    have htake2 : (candidates.erase bad).take maxItems = candidates.erase bad :=
      List.take_of_length_le (by omega)
    rw [htake1, htake2, hfe]
    by_cases her : candidates.erase bad = []
    · rw [if_pos her, her]
      simp [rankDesc]
    · rw [if_neg her]
  · rw [find_similar_eq, if_neg hne, List.take_of_length_le hlen]
    have hflt : (((candidates.map (mkArgs target)).map (calcSingle compute)).filter
        (keepResult threshold)).length < candidates.length := by
      have hbadmem : calcSingle compute (mkArgs target bad) ∈
          (candidates.map (mkArgs target)).map (calcSingle compute) :=
        List.mem_map_of_mem _ (List.mem_map_of_mem _ hmem)
      have hkf : keepResult threshold (calcSingle compute (mkArgs target bad)) = false := by
        rw [calcSingle_error_eq compute _ e hfail, keepResult]
        simp
      calc (((candidates.map (mkArgs target)).map (calcSingle compute)).filter
          (keepResult threshold)).length
          < ((candidates.map (mkArgs target)).map (calcSingle compute)).length := by
            rw [List.length_filter_lt_length_iff_exists]
            exact ⟨_, hbadmem, by rw [hkf]; exact Bool.false_ne_true⟩
        _ = candidates.length := by rw [List.length_map, List.length_map]
    calc ((rankDesc (((candidates.map (mkArgs target)).map (calcSingle compute)).filter
        (keepResult threshold))).take maxResults).length
        ≤ (rankDesc (((candidates.map (mkArgs target)).map (calcSingle compute)).filter
          (keepResult threshold))).length := (List.take_sublist _ _).length_le
      _ = (((candidates.map (mkArgs target)).map (calcSingle compute)).filter
          (keepResult threshold)).length := by rw [rankDesc, List.length_insertionSort]
      _ ≤ candidates.length - 1 := by omega

/-- A compute function that raises exactly for the candidate with id "bad",
used to exhibit C3's failure isolation on a concrete batch. -/
noncomputable def failingCompute : SimArgs → Except Str MetricVals :=
  fun a => if a.id2 = ['b', 'a', 'd'] then .error ['b', 'o', 'o', 'm'] else computePure a

theorem claim_C3_isolation_witness :
    failingCompute (mkArgs (Ticket.mk ['t'] [] []) (Ticket.mk ['b', 'a', 'd'] [] [])) =
      .error ['b', 'o', 'o', 'm'] ∧
    Ticket.mk ['b', 'a', 'd'] [] [] ∈
      [Ticket.mk ['g'] [] [], Ticket.mk ['b', 'a', 'd'] [] []] ∧
    ([Ticket.mk ['g'] [] [], Ticket.mk ['b', 'a', 'd'] [] []] : List Ticket).length ≤ 200 ∧
    (calcSingle failingCompute (mkArgs (Ticket.mk ['t'] [] [])
        (Ticket.mk ['b', 'a', 'd'] [] []))).error = some ['b', 'o', 'o', 'm'] ∧
    (calcSingle failingCompute (mkArgs (Ticket.mk ['t'] [] [])
        (Ticket.mk ['b', 'a', 'd'] [] []))).combined = 0 ∧
    find_similar_tickets failingCompute 200 false (Ticket.mk ['t'] [] [])
        [Ticket.mk ['g'] [] [], Ticket.mk ['b', 'a', 'd'] [] []] 0.3 10 =
      find_similar_tickets failingCompute 200 false (Ticket.mk ['t'] [] [])
        ([Ticket.mk ['g'] [] [], Ticket.mk ['b', 'a', 'd'] [] []].erase
          (Ticket.mk ['b', 'a', 'd'] [] [])) 0.3 10 := by
  have hfail : failingCompute (mkArgs (Ticket.mk ['t'] [] [])
      (Ticket.mk ['b', 'a', 'd'] [] [])) = .error ['b', 'o', 'o', 'm'] := by
    simp only [failingCompute]
    rw [if_pos (by decide)]
  have h := claim_C3_isolation failingCompute 200 false (Ticket.mk ['t'] [] [])
    [Ticket.mk ['g'] [] [], Ticket.mk ['b', 'a', 'd'] [] []] 0.3 10
    (Ticket.mk ['b', 'a', 'd'] [] []) ['b', 'o', 'o', 'm'] hfail (by decide) (by decide)
  exact ⟨hfail, by decide, by decide, h.1, h.2.1, h.2.2.1⟩

theorem jaccard_self_of_nonempty (S : Finset Str) (h : S ≠ ∅) :
    jaccard_similarity S S = 1 := by
  have hc : 0 < S.card := Finset.card_pos.mpr (Finset.nonempty_iff_ne_empty.mpr h)
  rw [jaccard_similarity, if_neg (by simp [h]), if_neg (by simp [h])]
  dsimp only
  rw [Finset.inter_self, Finset.union_self, if_pos hc]
  exact div_self (by exact_mod_cast hc.ne')

theorem sequence_abc_self :
    sequence_similarity ['a', 'b', 'c'] ['a', 'b', 'c'] = 1 := by
  rw [sequence_similarity, if_neg (by simp)]
  have hn : normalize_text ['a', 'b', 'c'] = ['a', 'b', 'c'] := by decide
  rw [hn, seqRatio]
  have hm : matchTotal ['a', 'b', 'c'] ['a', 'b', 'c'] = 3 := by decide
  rw [if_neg (by decide), hm]
  norm_num

/-- Shared helper: the combined self-similarity of the content "abc" with
empty titles is exactly 0.85 = 0.30 + 0.30 + 0.25. -/
theorem combined_abc_self :
    combined_similarity ['a', 'b', 'c'] ['a', 'b', 'c'] [] [] = 0.85 := by
  have hcos : cosine_similarity ['a', 'b', 'c'] ['a', 'b', 'c'] = 1 :=
    cosine_self_eq_one _ (by decide)
  have hjac : jaccard_similarity (extract_keywords ['a', 'b', 'c'] 3)
      (extract_keywords ['a', 'b', 'c'] 3) = 1 :=
    jaccard_self_of_nonempty _ (by decide)
  rw [combined_similarity, if_neg (by simp)]
  dsimp only
  rw [sequence_abc_self, hcos, hjac, if_neg (by simp)]
  push_cast
  norm_num [min_def]

theorem calcSingle_pure_proj (a : SimArgs) :
    (calcSingle computePure a).error = none ∧
    (calcSingle computePure a).combined =
      combined_similarity a.text1 a.text2 a.title1 a.title2 ∧
    (calcSingle computePure a).id1 = a.id1 ∧ (calcSingle computePure a).id2 = a.id2 := by
  rw [calcSingle, computePure]
  exact ⟨rfl, rfl, rfl, rfl⟩

/-- C5 counterexample: on a two-ticket input whose sequential result is
non-empty, `calculate_similarity_matrix` returns `[]` when the executor
fails — it does not fall back to sequential computation as the claim states. -/
theorem claim_C5_counterexample :
    calculate_similarity_matrix computePure 200 true
      [Ticket.mk ['1'] [] ['a', 'b', 'c'], Ticket.mk ['2'] [] ['a', 'b', 'c']]
      (0.3 : ℝ) = [] ∧
    calculate_similarity_matrix computePure 200 false
      [Ticket.mk ['1'] [] ['a', 'b', 'c'], Ticket.mk ['2'] [] ['a', 'b', 'c']]
      (0.3 : ℝ) ≠ [] := by
  constructor
  · rw [matrix_eq, if_neg (by norm_num), if_pos rfl]
  · rw [matrix_eq, if_neg (by norm_num), if_neg (by simp)]
    have htake : ([Ticket.mk ['1'] [] ['a', 'b', 'c'],
        Ticket.mk ['2'] [] ['a', 'b', 'c']] : List Ticket).take 200 =
        [Ticket.mk ['1'] [] ['a', 'b', 'c'], Ticket.mk ['2'] [] ['a', 'b', 'c']] := by
      decide
    rw [htake]
    have hpairs : allPairs [Ticket.mk ['1'] [] ['a', 'b', 'c'],
        Ticket.mk ['2'] [] ['a', 'b', 'c']] =
        [(Ticket.mk ['1'] [] ['a', 'b', 'c'], Ticket.mk ['2'] [] ['a', 'b', 'c'])] := by
      decide
    rw [hpairs, List.map_cons, List.map_nil, List.filter_cons]
    have hcomb : (calcSingle computePure (mkPairArgs (Ticket.mk ['1'] [] ['a', 'b', 'c'])
        (Ticket.mk ['2'] [] ['a', 'b', 'c']))).combined = 0.85 :=
      (calcSingle_pure_proj _).2.1.trans combined_abc_self
    have hkeep : keepResult (0.3 : ℝ) (calcSingle computePure
        (mkPairArgs (Ticket.mk ['1'] [] ['a', 'b', 'c'])
          (Ticket.mk ['2'] [] ['a', 'b', 'c']))) = true := by
      rw [keepResult, Option.isNone_iff_eq_none.mpr (calcSingle_pure_proj _).1,
        Bool.true_and, hcomb]
      exact decide_eq_true (by norm_num)
    rw [hkeep]
    simp only [if_true, List.filter_nil]
    rw [rankDesc]
    simp

/-- C5 (amended): `find_similar_tickets` with a failing executor falls back to
the sequential path and returns exactly what the normal path returns; but
`calculate_similarity_matrix` has no fallback — when the executor fails it
returns the empty list regardless of the input. -/
theorem claim_C5_fallback (compute : SimArgs → Except Str MetricVals) (maxItems : ℕ)
    (target : Ticket) (candidates : List Ticket) (threshold : ℝ) (maxResults : ℕ)
    (tickets : List Ticket) (thr2 : ℝ) :
    find_similar_tickets compute maxItems true target candidates threshold maxResults =
      find_similar_tickets compute maxItems false target candidates threshold maxResults ∧
    calculate_similarity_matrix compute maxItems true tickets thr2 = [] := by
  constructor
  · rw [find_similar_eq, find_similar_eq]
  · rw [matrix_eq]
    split
    · rfl
    · rfl

/-- C10 (amended): every returned result carries the candidate's id in both
`id1` and `id2`; and provided the target's id is not among the candidate ids
(the calling service filters it out), the target's id never appears in the
results. -/
theorem claim_C10_ids (maxItems : ℕ) (poolFails : Bool) (target : Ticket)
    (candidates : List Ticket) (threshold : ℝ) (maxResults : ℕ) :
    (∀ r ∈ find_similar_tickets computePure maxItems poolFails target candidates threshold
        maxResults, r.id1 = r.id2 ∧ r.id1 ∈ candidates.map Ticket.id) ∧
    (target.id ∉ candidates.map Ticket.id →
      target.id ∉ (find_similar_tickets computePure maxItems poolFails target candidates
        threshold maxResults).map SimResult.id1) := by
  have hmain : ∀ r ∈ find_similar_tickets computePure maxItems poolFails target candidates
      threshold maxResults, r.id1 = r.id2 ∧ r.id1 ∈ candidates.map Ticket.id := by
    intro r hr
    rw [find_similar_eq] at hr
    by_cases hc : candidates = []
    · rw [if_pos hc] at hr
      simp at hr
    · rw [if_neg hc] at hr
      have h1 := (List.take_sublist _ _).subset hr
      have h2 := mem_rankDesc.mp h1
      have h3 := List.mem_of_mem_filter h2
      rw [List.mem_map] at h3
      obtain ⟨a, ha, rfl⟩ := h3
      rw [List.mem_map] at ha
      obtain ⟨c, hcmem, rfl⟩ := ha
      rw [(calcSingle_pure_proj (mkArgs target c)).2.2.1]
      refine ⟨?_, ?_⟩
      · rw [(calcSingle_pure_proj (mkArgs target c)).2.2.2]
        rfl
      · exact List.mem_map_of_mem _ ((List.take_sublist _ _).subset hcmem)
  refine ⟨hmain, ?_⟩
  intro hni hmem
  rw [List.mem_map] at hmem
  obtain ⟨r, hr, hid⟩ := hmem
  have hin := (hmain r hr).2
  rw [hid] at hin
  exact hni hin

theorem claim_C10_ids_witness :
    (Ticket.mk ['T'] [] ['a', 'b', 'c']).id ∉
      ([Ticket.mk ['C'] [] ['a', 'b', 'c']].map Ticket.id) ∧
    (∀ r ∈ find_similar_tickets computePure 200 false (Ticket.mk ['T'] [] ['a', 'b', 'c'])
        [Ticket.mk ['C'] [] ['a', 'b', 'c']] (0.3 : ℝ) 10,
      r.id1 = r.id2 ∧ r.id1 ∈ [Ticket.mk ['C'] [] ['a', 'b', 'c']].map Ticket.id) ∧
    (Ticket.mk ['T'] [] ['a', 'b', 'c']).id ∉
      (find_similar_tickets computePure 200 false (Ticket.mk ['T'] [] ['a', 'b', 'c'])
        [Ticket.mk ['C'] [] ['a', 'b', 'c']] (0.3 : ℝ) 10).map SimResult.id1 := by
  have hni : (Ticket.mk ['T'] [] ['a', 'b', 'c']).id ∉
      ([Ticket.mk ['C'] [] ['a', 'b', 'c']].map Ticket.id) := by decide
  have h := claim_C10_ids 200 false (Ticket.mk ['T'] [] ['a', 'b', 'c'])
    [Ticket.mk ['C'] [] ['a', 'b', 'c']] (0.3 : ℝ) 10
  exact ⟨hni, h.1, h.2 hni⟩

/-- C10 counterexample: when a candidate carries the same id as the target
(the caller failed to exclude it), that id appears in the returned results,
so the target's id is not universally absent from the output. -/
theorem claim_C10_counterexample :
    (Ticket.mk ['X'] [] ['a', 'b', 'c']).id ∈
      (find_similar_tickets computePure 200 false (Ticket.mk ['X'] [] ['a', 'b', 'c'])
        [Ticket.mk ['X'] [] ['a', 'b', 'c']] (0.3 : ℝ) 10).map SimResult.id1 := by
  rw [find_similar_eq, if_neg (by simp)]
  have htake : ([Ticket.mk ['X'] [] ['a', 'b', 'c']] : List Ticket).take 200 =
      [Ticket.mk ['X'] [] ['a', 'b', 'c']] := by decide
  rw [htake, List.map_cons, List.map_nil, List.map_cons, List.map_nil, List.filter_cons]
  have hcomb : (calcSingle computePure (mkArgs (Ticket.mk ['X'] [] ['a', 'b', 'c'])
      (Ticket.mk ['X'] [] ['a', 'b', 'c']))).combined = 0.85 :=
    (calcSingle_pure_proj _).2.1.trans combined_abc_self
  have hkeep : keepResult (0.3 : ℝ) (calcSingle computePure
      (mkArgs (Ticket.mk ['X'] [] ['a', 'b', 'c'])
        (Ticket.mk ['X'] [] ['a', 'b', 'c']))) = true := by
    rw [keepResult, Option.isNone_iff_eq_none.mpr (calcSingle_pure_proj _).1,
      Bool.true_and, hcomb]
    exact decide_eq_true (by norm_num)
  rw [hkeep]
  simp only [if_true, List.filter_nil]
  have hrank : rankDesc [calcSingle computePure (mkArgs (Ticket.mk ['X'] [] ['a', 'b', 'c'])
      (Ticket.mk ['X'] [] ['a', 'b', 'c']))] =
      [calcSingle computePure (mkArgs (Ticket.mk ['X'] [] ['a', 'b', 'c'])
        (Ticket.mk ['X'] [] ['a', 'b', 'c']))] := rfl
  rw [hrank, List.take_of_length_le (by simp), List.map_cons, List.map_nil,
    (calcSingle_pure_proj _).2.2.1]
  exact List.mem_singleton.mpr rfl

/-- Shared helper: with identical "abc" contents and identical "abc" titles
the combined similarity is exactly 1. -/
theorem combined_abc_titled :
    combined_similarity ['a', 'b', 'c'] ['a', 'b', 'c'] ['a', 'b', 'c'] ['a', 'b', 'c'] = 1 := by
  have hcos : cosine_similarity ['a', 'b', 'c'] ['a', 'b', 'c'] = 1 :=
    cosine_self_eq_one _ (by decide)
  have hjac : jaccard_similarity (extract_keywords ['a', 'b', 'c'] 3)
      (extract_keywords ['a', 'b', 'c'] 3) = 1 :=
    jaccard_self_of_nonempty _ (by decide)
  rw [combined_similarity, if_neg (by simp)]
  dsimp only
  rw [sequence_abc_self, hcos, hjac, if_pos (by simp)]
  push_cast
  norm_num [min_def]

theorem claim_C7_threshold_monotone_witness :
    ((['C'] : Str) ∈ (find_similar_tickets computePure 200 false
        (Ticket.mk ['T'] ['a', 'b', 'c'] ['a', 'b', 'c'])
        [Ticket.mk ['C'] ['a', 'b', 'c'] ['a', 'b', 'c']] (0.9 : ℝ) 10).map SimResult.id1) ∧
    ((['C'] : Str) ∈ (find_similar_tickets computePure 200 false
        (Ticket.mk ['T'] ['a', 'b', 'c'] ['a', 'b', 'c'])
        [Ticket.mk ['C'] ['a', 'b', 'c'] ['a', 'b', 'c']] (0.1 : ℝ) 10).map SimResult.id1) := by
  have hmem : (['C'] : Str) ∈ (find_similar_tickets computePure 200 false
      (Ticket.mk ['T'] ['a', 'b', 'c'] ['a', 'b', 'c'])
      [Ticket.mk ['C'] ['a', 'b', 'c'] ['a', 'b', 'c']] (0.9 : ℝ) 10).map SimResult.id1 := by
    rw [find_similar_eq, if_neg (by simp)]
    have htake : ([Ticket.mk ['C'] ['a', 'b', 'c'] ['a', 'b', 'c']] : List Ticket).take 200 =
        [Ticket.mk ['C'] ['a', 'b', 'c'] ['a', 'b', 'c']] := by decide
    rw [htake, List.map_cons, List.map_nil, List.map_cons, List.map_nil, List.filter_cons]
    have hcomb : (calcSingle computePure
        (mkArgs (Ticket.mk ['T'] ['a', 'b', 'c'] ['a', 'b', 'c'])
          (Ticket.mk ['C'] ['a', 'b', 'c'] ['a', 'b', 'c']))).combined = 1 :=
      (calcSingle_pure_proj _).2.1.trans combined_abc_titled
    have hkeep : keepResult (0.9 : ℝ) (calcSingle computePure
        (mkArgs (Ticket.mk ['T'] ['a', 'b', 'c'] ['a', 'b', 'c'])
          (Ticket.mk ['C'] ['a', 'b', 'c'] ['a', 'b', 'c']))) = true := by
      rw [keepResult, Option.isNone_iff_eq_none.mpr (calcSingle_pure_proj _).1,
        Bool.true_and, hcomb]
      exact decide_eq_true (by norm_num)
    rw [hkeep]
    simp only [if_true, List.filter_nil]
    have hrank : rankDesc [calcSingle computePure
        (mkArgs (Ticket.mk ['T'] ['a', 'b', 'c'] ['a', 'b', 'c'])
          (Ticket.mk ['C'] ['a', 'b', 'c'] ['a', 'b', 'c']))] =
        [calcSingle computePure
          (mkArgs (Ticket.mk ['T'] ['a', 'b', 'c'] ['a', 'b', 'c'])
            (Ticket.mk ['C'] ['a', 'b', 'c'] ['a', 'b', 'c']))] := rfl
    rw [hrank, List.take_of_length_le (by simp), List.map_cons, List.map_nil,
      (calcSingle_pure_proj _).2.2.1]
    exact List.mem_singleton.mpr rfl
  exact ⟨hmem, claim_C7_threshold_monotone 200 false
    (Ticket.mk ['T'] ['a', 'b', 'c'] ['a', 'b', 'c'])
    [Ticket.mk ['C'] ['a', 'b', 'c'] ['a', 'b', 'c']] 10 ['C'] hmem⟩
